import Mathlib

/-!
Verification of ipfs-see-all: root selection, classification and ranking.

A shallow embedding of `main.go`.

* `objectInfo`, `objectInfos`, `objectInfos.Len`, `objectInfos.Swap`,
  `objectInfos.Less` are the report row type and its `sort.Interface` methods.
* `CidSet` stands for go-cid's `cid.Set` (a Go map used as a set): the list of
  its keys.  The order in which `Keys()` enumerates a Go map is unspecified, so
  the snapshot taken by `allKeys.Keys()` is an explicit argument of the loops,
  constrained only to be a permutation of the set's keys.
* `Node` holds what the program observes of a resolved DAG node: its links
  (each one as the CID that `cid.NewCidV0(lnk.Hash)` builds), its payload and
  the pair returned by `Size()`.
* `findRoots` is the root-selection loop (main.go lines 103-116), `classify`
  the classification loop (lines 119-147).
* The collaborators `dag.Get`, `ft.FSNodeFromBytes` and `c.String()` are
  function arguments.
* `TotalSize` is a `uint64` in the source; it is only ever compared, never
  computed with, so it is a `Nat` here.
-/

namespace IpfsSeeAll

/-! ## Data model -/

/-- One row of the report (`type objectInfo struct`).  The field `Type` of the
source is `Type_` here, `Type` being reserved. -/
structure objectInfo where
  Hash : String
  Type_ : String
  TotalSize : Nat
  Pinned : Bool
deriving DecidableEq, Repr

/-- The sortable slice of rows (`type objectInfos []objectInfo`). -/
abbrev objectInfos := List objectInfo

/-- Method `Len` of `objectInfos`. -/
def objectInfos.Len (ois : objectInfos) : Nat :=
  ois.length

/-- Method `Swap` of `objectInfos`: `ois[i], ois[j] = ois[j], ois[i]`. -/
def objectInfos.Swap (ois : objectInfos) (i j : Fin ois.length) : objectInfos :=
  (ois.set i.val (ois.get j)).set j.val (ois.get i)

/-- Method `Less` of `objectInfos`, branch for branch as in the source. -/
def objectInfos.Less (ois : objectInfos) (i j : Fin ois.length) : Bool :=
  if (ois.get i).Type_ = "unknown" then
    if (ois.get j).Type_ ≠ "unknown" then
      false
    else if (ois.get i).Pinned && !(ois.get j).Pinned then
      true
    else
      decide ((ois.get i).TotalSize > (ois.get j).TotalSize)
  else if (ois.get j).Type_ = "unknown" then
    true
  else if (ois.get i).Pinned && !(ois.get j).Pinned then
    true
  else
    decide ((ois.get i).TotalSize > (ois.get j).TotalSize)

/-- The comparator on a pair of rows: `Less(0, 1)` on the slice `[a, b]`. -/
def lessPair (a b : objectInfo) : Bool :=
  objectInfos.Less [a, b] ⟨0, by simp⟩ ⟨1, by simp⟩

/-- A set of content identifiers (`cid.Set`), as the list of its keys. -/
abbrev CidSet (α : Type) := List α

/-- The empty set, `cid.NewSet()`. -/
def CidSet.NewSet {α : Type} : CidSet α := []

/-- Membership test, `s.Has(c)`. -/
def CidSet.Has {α : Type} [DecidableEq α] (s : CidSet α) (c : α) : Bool :=
  decide (c ∈ s)

/-- Insertion, `s.Add(c)`: a key already present is not stored twice. -/
def CidSet.Add {α : Type} [DecidableEq α] (s : CidSet α) (c : α) : CidSet α :=
  if c ∈ s then s else s ++ [c]

/-- Deletion, `s.Remove(c)`: deleting an absent key changes nothing. -/
def CidSet.Remove {α : Type} [DecidableEq α] (s : CidSet α) (c : α) : CidSet α :=
  s.filter (fun k => decide (k ≠ c))

/-- What the program reads of a resolved node: the CIDs of its links in order,
its payload bytes, and the value and optional error returned by `Size()`. -/
structure Node (α : Type) where
  Links : List α
  Data : List Nat
  Size : Nat × Option String

/-! ## Root selection (main.go, lines 103-116) -/

/-- The inner loop `for _, lnk := range nd.Links`: a link that is not a
recursive pin is removed from `allKeys`. -/
def removeLinks {α : Type} [DecidableEq α] (recpins : CidSet α) (links : List α)
    (allKeys : CidSet α) : CidSet α :=
  links.foldl
    (fun ks lnk => if !CidSet.Has recpins lnk then CidSet.Remove ks lnk else ks)
    allKeys

/-- One iteration of the outer loop for the key `c`: on a resolver error the
iteration is skipped (`continue`), otherwise the node's links are processed. -/
def selectStep {α : Type} [DecidableEq α] (Get : α → Except String (Node α))
    (recpins : CidSet α) (allKeys : CidSet α) (c : α) : CidSet α :=
  match Get c with
  | .error _ => allKeys
  | .ok nd => removeLinks recpins nd.Links allKeys

/-- The root-selection loop `for _, c := range allKeys.Keys()`: `keys` is the
snapshot returned by `allKeys.Keys()`, `allKeys` the set being shrunk. -/
def findRoots {α : Type} [DecidableEq α] (Get : α → Except String (Node α))
    (recpins : CidSet α) (keys : List α) (allKeys : CidSet α) : CidSet α :=
  keys.foldl (selectStep Get recpins) allKeys

/-! ## Classification (main.go, lines 119-147) -/

/-- The type label computed at lines 139-144 from the payload decoder's
result (`some t` is a decoded node whose `Type.String()` is `t`). -/
def typeLabel (decoded : Option String) : String :=
  match decoded with
  | some t => "unixfs-" ++ t
  | none => "unknown"

/-- One iteration of the classification loop for the key `c`: on a resolver
error the iteration is skipped (`continue`), otherwise one row is appended. -/
def classifyStep {α : Type} [DecidableEq α] (Get : α → Except String (Node α))
    (FSNodeFromBytes : List Nat → Option String) (cidString : α → String)
    (recpins : CidSet α) (output : List objectInfo) (c : α) : List objectInfo :=
  match Get c with
  | .error _ => output
  | .ok nd =>
    output ++ [{ Hash := cidString c
                 Type_ := typeLabel (FSNodeFromBytes nd.Data)
                 TotalSize := nd.Size.1
                 Pinned := CidSet.Has recpins c }]

/-- The classification loop `for _, c := range allKeys.Keys()` over the roots:
`keys` is the snapshot returned by `allKeys.Keys()` after root selection. -/
def classify {α : Type} [DecidableEq α] (Get : α → Except String (Node α))
    (FSNodeFromBytes : List Nat → Option String) (cidString : α → String)
    (recpins : CidSet α) (keys : List α) : List objectInfo :=
  keys.foldl (classifyStep Get FSNodeFromBytes cidString recpins) []

/-- Whether `dag.Get` returns a node, and no error, for the key `c`. -/
def resolves {α : Type} (Get : α → Except String (Node α)) (c : α) : Bool :=
  match Get c with
  | .ok _ => true
  | .error _ => false

/-- The candidate set in the middle of root selection: after `n` complete
iterations of the outer loop and, when iteration `n` resolved its node, after
the first `m` links of that node. -/
def stateAfter {α : Type} [DecidableEq α] (Get : α → Except String (Node α))
    (recpins : CidSet α) (keys : List α) (allKeys : CidSet α) (n m : Nat) : CidSet α :=
  match keys.get? n with
  | none => findRoots Get recpins (keys.take n) allKeys
  | some c =>
    match Get c with
    | .error _ => findRoots Get recpins (keys.take n) allKeys
    | .ok nd =>
      removeLinks recpins (nd.Links.take m) (findRoots Get recpins (keys.take n) allKeys)

/-! ## Sorting (main.go, line 150)

`sort.Sort` belongs to Go's standard library, not to the repository.  On a
slice of fewer than 7 elements every release of the library runs
`insertionSort(data, 0, data.Len())` and nothing else (the quicksort loop and
the gap-6 pass only touch longer slices), calling the `Less` and `Swap` of the
source. -/

/-- The inner loop of the library's `insertionSort`, which runs
`data.Swap(j, j-1)` and decrements `j` from `i` while
`j > a && data.Less(j, j-1)`.  An index outside the slice stops the loop; the
sort never produces one. -/
def insertDown (a : Nat) : Nat → objectInfos → objectInfos
  | 0, data => data
  | j + 1, data =>
    if h : a < j + 1 ∧ j + 1 < data.length then
      if data.Less ⟨j + 1, h.2⟩ ⟨j, by omega⟩ then
        insertDown a j (data.Swap ⟨j + 1, h.2⟩ ⟨j, by omega⟩)
      else data
    else data

/-- The outer loop of the library's `insertionSort`, `for i := a + 1; i < b; i++`,
with `n` iterations left to run. -/
def insertionLoop (a b : Nat) : Nat → Nat → objectInfos → objectInfos
  | 0, _, data => data
  | n + 1, i, data =>
    if i < b then insertionLoop a b n (i + 1) (insertDown a i data) else data

/-- The library's `insertionSort(data, a, b)`. -/
def insertionSort (data : objectInfos) (a b : Nat) : objectInfos :=
  insertionLoop a b (b - (a + 1)) (a + 1) data

/-- The call `sort.Sort(objectInfos(output))` on a slice of fewer than 7 rows. -/
def sortShort (data : objectInfos) : objectInfos :=
  insertionSort data 0 data.Len

/-! ## The spec's rule table for the comparator -/

/-- The comparator as the specification words it, on the six facts it names:
when exactly one of the two rows is of unknown type the answer is whether the
second row is the unknown one; otherwise the first row is less when it is
pinned and the second is not, or when its size is strictly larger. -/
def lessRule (aUnknown bUnknown aPinned bPinned : Bool) (aSize bSize : Nat) : Bool :=
  if aUnknown != bUnknown then bUnknown
  else (aPinned && !bPinned) || decide (aSize > bSize)

/-- The sort postcondition for `Less`: no row is `Less` than the row
immediately before it. -/
def sortedByLess (ois : objectInfos) : Prop :=
  ∀ (k : Nat) (h : k + 1 < ois.length),
    ois.Less ⟨k + 1, h⟩ ⟨k, by omega⟩ = false

/-! ## Concrete scenarios -/

/-- A node with the given links, an empty payload and size 0. -/
def linksNode (links : List Nat) : Node Nat :=
  { Links := links, Data := [], Size := (0, none) }

/-- Scenario 1 of the specification, with A, B, C as 1, 2, 3: A links to B. -/
def scenario1Get (c : Nat) : Except String (Node Nat) :=
  if c = 1 then .ok (linksNode [2]) else .ok (linksNode [])

/-- Scenario 2 of the specification, with X, Y as 1, 2: X links to Y. -/
def scenario2Get (c : Nat) : Except String (Node Nat) :=
  if c = 1 then .ok (linksNode [2]) else .ok (linksNode [])

/-- A chain 1 → 2 → 3: node 2 is removed by the links of node 1 and yet its
own link removes node 3. -/
def chainGet (c : Nat) : Except String (Node Nat) :=
  if c = 1 then .ok (linksNode [2])
  else if c = 2 then .ok (linksNode [3])
  else .ok (linksNode [])

/-- Node 1 links to node 2, and node 2 cannot be resolved. -/
def brokenChildGet (c : Nat) : Except String (Node Nat) :=
  if c = 1 then .ok (linksNode [2]) else .error "not found"

/-- Every node links to identifier 99, which is stored nowhere. -/
def strayLinkGet (_ : Nat) : Except String (Node Nat) :=
  .ok (linksNode [99])

/-- No node can be resolved. -/
def failingGet (_ : Nat) : Except String (Node Nat) :=
  .error "not found"

/-- Nodes 7 and 9 resolve, nothing else does. -/
def partialGet (c : Nat) : Except String (Node Nat) :=
  if c = 7 ∨ c = 9 then .ok { Links := [], Data := [c], Size := (c, none) }
  else .error "not found"

/-- A payload decoder that recognises no payload. -/
def noDecode (_ : List Nat) : Option String := none

/-- A printer of identifiers for the scenarios. -/
def natString (c : Nat) : String := toString c

/-- A known-typed, pinned row of size 5. -/
def knownPinned5 : objectInfo :=
  { Hash := "a", Type_ := "unixfs-File", TotalSize := 5, Pinned := true }

/-- A known-typed, unpinned row of size 1000. -/
def knownUnpinned1000 : objectInfo :=
  { Hash := "b", Type_ := "unixfs-File", TotalSize := 1000, Pinned := false }

/-- A known-typed, unpinned row of size 1. -/
def knownUnpinned1 : objectInfo :=
  { Hash := "c", Type_ := "unixfs-Directory", TotalSize := 1, Pinned := false }

/-- An unknown-typed, unpinned row of size 10. -/
def unknownUnpinned10 : objectInfo :=
  { Hash := "d", Type_ := "unknown", TotalSize := 10, Pinned := false }

/-- An unknown-typed, pinned row of size 2000. -/
def unknownPinned2000 : objectInfo :=
  { Hash := "e", Type_ := "unknown", TotalSize := 2000, Pinned := true }

/-- A known-typed, unpinned row of size 10. -/
def knownUnpinned10 : objectInfo :=
  { Hash := "f", Type_ := "unixfs-File", TotalSize := 10, Pinned := false }

/-- A known-typed, unpinned row of size 20. -/
def knownUnpinned20 : objectInfo :=
  { Hash := "g", Type_ := "unixfs-File", TotalSize := 20, Pinned := false }

/-- Every node resolves, with payload `[c]` and no links, but its `Size()`
returns the value 0 together with an error. -/
def sizeErrGet (c : Nat) : Except String (Node Nat) :=
  .ok { Links := [], Data := [c], Size := (0, some "size error") }

/-- A payload decoder that recognises the payload `[7]` as a file and nothing
else. -/
def fileDecode (d : List Nat) : Option String :=
  if d = [7] then some "File" else none

/-- The row appended at lines 133-146 for the key `c` whose node is `nd`. -/
def rowOf {α : Type} [DecidableEq α] (FSNodeFromBytes : List Nat → Option String)
    (cidString : α → String) (recpins : CidSet α) (c : α) (nd : Node α) : objectInfo :=
  { Hash := cidString c
    Type_ := typeLabel (FSNodeFromBytes nd.Data)
    TotalSize := nd.Size.1
    Pinned := CidSet.Has recpins c }

/-! ## Shared lemmas -/

theorem mem_Remove {α : Type} [DecidableEq α] (s : CidSet α) (c x : α) :
    x ∈ CidSet.Remove s c ↔ x ∈ s ∧ x ≠ c := by
  simp [CidSet.Remove]

theorem mem_removeLinks {α : Type} [DecidableEq α] (recpins : CidSet α)
    (links : List α) (allKeys : CidSet α) (x : α) :
    x ∈ removeLinks recpins links allKeys ↔
      x ∈ allKeys ∧ ¬ (x ∈ links ∧ x ∉ recpins) := by
  unfold removeLinks
  induction links generalizing allKeys with
  | nil => simp
  | cons l ls ih =>
    rw [List.foldl_cons, ih]
    by_cases hl : l ∈ recpins
    · simp only [CidSet.Has, hl, decide_True, Bool.not_true, Bool.false_eq_true, if_false,
        List.mem_cons]
      constructor
      · rintro ⟨h1, h2⟩
        refine ⟨h1, ?_⟩
        rintro ⟨h3 | h3, h4⟩
        · exact h4 (h3 ▸ hl)
        · exact h2 ⟨h3, h4⟩
      · rintro ⟨h1, h2⟩
        exact ⟨h1, fun h => h2 ⟨Or.inr h.1, h.2⟩⟩
    · simp only [CidSet.Has, hl, decide_False, Bool.not_false, if_true, List.mem_cons,
        mem_Remove]
      constructor
      · rintro ⟨⟨h1, h2⟩, h3⟩
        refine ⟨h1, ?_⟩
        rintro ⟨h4 | h4, h5⟩
        · exact h2 h4
        · exact h3 ⟨h4, h5⟩
      · rintro ⟨h1, h2⟩
        refine ⟨⟨h1, ?_⟩, fun h => h2 ⟨Or.inr h.1, h.2⟩⟩
        intro h
        exact h2 ⟨Or.inl h, h ▸ hl⟩

theorem mem_selectStep {α : Type} [DecidableEq α] (Get : α → Except String (Node α))
    (recpins : CidSet α) (allKeys : CidSet α) (c x : α) :
    x ∈ selectStep Get recpins allKeys c ↔
      x ∈ allKeys ∧ ¬ ∃ nd, Get c = .ok nd ∧ x ∈ nd.Links ∧ x ∉ recpins := by
  unfold selectStep
  cases h : Get c with
  | error e => simp
  | ok nd => simp [mem_removeLinks]

theorem mem_findRoots {α : Type} [DecidableEq α] (Get : α → Except String (Node α))
    (recpins : CidSet α) (keys : List α) (allKeys : CidSet α) (x : α) :
    x ∈ findRoots Get recpins keys allKeys ↔
      x ∈ allKeys ∧
        ¬ ∃ c, c ∈ keys ∧ ∃ nd, Get c = .ok nd ∧ x ∈ nd.Links ∧ x ∉ recpins := by
  unfold findRoots
  induction keys generalizing allKeys with
  | nil => simp
  | cons k ks ih =>
    rw [List.foldl_cons, ih, mem_selectStep]
    constructor
    · rintro ⟨⟨h1, h2⟩, h3⟩
      refine ⟨h1, ?_⟩
      rintro ⟨c, hc, hnd⟩
      rcases List.mem_cons.1 hc with rfl | hc
      · exact h2 hnd
      · exact h3 ⟨c, hc, hnd⟩
    · rintro ⟨h1, h2⟩
      exact ⟨⟨h1, fun h => h2 ⟨k, List.mem_cons_self _ _, h⟩⟩,
        fun ⟨c, hc, hnd⟩ => h2 ⟨c, List.mem_cons_of_mem _ hc, hnd⟩⟩

theorem Remove_sublist {α : Type} [DecidableEq α] (s : CidSet α) (c : α) :
    (CidSet.Remove s c).Sublist s := by
  unfold CidSet.Remove
  exact List.filter_sublist s

theorem removeLinks_sublist {α : Type} [DecidableEq α] (recpins : CidSet α)
    (links : List α) (allKeys : CidSet α) :
    (removeLinks recpins links allKeys).Sublist allKeys := by
  unfold removeLinks
  induction links generalizing allKeys with
  | nil => exact List.Sublist.refl _
  | cons l ls ih =>
    rw [List.foldl_cons]
    refine (ih _).trans ?_
    by_cases hl : CidSet.Has recpins l = true
    · simp [hl]
    · simp only [hl, Bool.not_false, Bool.not_eq_true] at *
      simp only [hl, Bool.not_false, if_true]
      exact Remove_sublist allKeys l

theorem removeLinks_append {α : Type} [DecidableEq α] (recpins : CidSet α)
    (l₁ l₂ : List α) (allKeys : CidSet α) :
    removeLinks recpins (l₁ ++ l₂) allKeys =
      removeLinks recpins l₂ (removeLinks recpins l₁ allKeys) := by
  unfold removeLinks
  rw [List.foldl_append]

theorem selectStep_sublist {α : Type} [DecidableEq α] (Get : α → Except String (Node α))
    (recpins : CidSet α) (allKeys : CidSet α) (c : α) :
    (selectStep Get recpins allKeys c).Sublist allKeys := by
  unfold selectStep
  cases Get c with
  | error e => exact List.Sublist.refl _
  | ok nd => exact removeLinks_sublist recpins nd.Links allKeys

theorem findRoots_sublist {α : Type} [DecidableEq α] (Get : α → Except String (Node α))
    (recpins : CidSet α) (keys : List α) (allKeys : CidSet α) :
    (findRoots Get recpins keys allKeys).Sublist allKeys := by
  unfold findRoots
  induction keys generalizing allKeys with
  | nil => exact List.Sublist.refl _
  | cons k ks ih =>
    rw [List.foldl_cons]
    exact (ih _).trans (selectStep_sublist Get recpins allKeys k)

theorem findRoots_append {α : Type} [DecidableEq α] (Get : α → Except String (Node α))
    (recpins : CidSet α) (k₁ k₂ : List α) (allKeys : CidSet α) :
    findRoots Get recpins (k₁ ++ k₂) allKeys =
      findRoots Get recpins k₂ (findRoots Get recpins k₁ allKeys) := by
  unfold findRoots
  rw [List.foldl_append]

theorem stateAfter_sublist_taken {α : Type} [DecidableEq α]
    (Get : α → Except String (Node α)) (recpins : CidSet α) (keys : List α)
    (allKeys : CidSet α) (n m : Nat) :
    (stateAfter Get recpins keys allKeys n m).Sublist
      (findRoots Get recpins (keys.take n) allKeys) := by
  unfold stateAfter
  cases keys.get? n with
  | none => exact List.Sublist.refl _
  | some c =>
    dsimp only
    cases Get c with
    | error e => exact List.Sublist.refl _
    | ok nd => exact removeLinks_sublist recpins _ _

theorem stateAfter_succ_links {α : Type} [DecidableEq α]
    (Get : α → Except String (Node α)) (recpins : CidSet α) (keys : List α)
    (allKeys : CidSet α) (n m : Nat) :
    (stateAfter Get recpins keys allKeys n (m + 1)).Sublist
      (stateAfter Get recpins keys allKeys n m) := by
  unfold stateAfter
  cases keys.get? n with
  | none => exact List.Sublist.refl _
  | some c =>
    dsimp only
    cases Get c with
    | error e => exact List.Sublist.refl _
    | ok nd =>
      dsimp only
      have h : nd.Links.take (m + 1) = nd.Links.take m ++ (nd.Links.drop m).take 1 := by
        rw [← List.take_add]
      rw [h, removeLinks_append]
      exact removeLinks_sublist recpins _ _

theorem stateAfter_zero_links {α : Type} [DecidableEq α]
    (Get : α → Except String (Node α)) (recpins : CidSet α) (keys : List α)
    (allKeys : CidSet α) (n : Nat) :
    stateAfter Get recpins keys allKeys n 0 =
      findRoots Get recpins (keys.take n) allKeys := by
  unfold stateAfter
  cases keys.get? n with
  | none => rfl
  | some c =>
    dsimp only
    cases Get c with
    | error e => rfl
    | ok nd => simp [removeLinks]

theorem stateAfter_succ_key {α : Type} [DecidableEq α]
    (Get : α → Except String (Node α)) (recpins : CidSet α) (keys : List α)
    (allKeys : CidSet α) (n m : Nat) :
    (stateAfter Get recpins keys allKeys (n + 1) 0).Sublist
      (stateAfter Get recpins keys allKeys n m) := by
  rw [stateAfter_zero_links]
  unfold stateAfter
  have htake : keys.take (n + 1) = keys.take n ++ (keys.get? n).toList := by
    simpa using @List.take_succ _ keys n
  rw [htake, findRoots_append]
  cases keys.get? n with
  | none => simp [findRoots]
  | some c =>
    simp only [Option.toList, findRoots, List.foldl_cons, List.foldl_nil, selectStep]
    cases Get c with
    | error e => exact List.Sublist.refl _
    | ok nd =>
      dsimp only
      conv_lhs => rw [← List.take_append_drop m nd.Links]
      rw [removeLinks_append]
      exact removeLinks_sublist recpins _ _

theorem classify_fold_hashes {α : Type} [DecidableEq α] (Get : α → Except String (Node α))
    (FSNodeFromBytes : List Nat → Option String) (cidString : α → String)
    (recpins : CidSet α) (keys : List α) (output : List objectInfo) :
    (keys.foldl (classifyStep Get FSNodeFromBytes cidString recpins) output).map
        objectInfo.Hash =
      output.map objectInfo.Hash ++ (keys.filter (resolves Get)).map cidString := by
  induction keys generalizing output with
  | nil => simp
  | cons k ks ih =>
    rw [List.foldl_cons, ih]
    cases hg : Get k with
    | error e => simp [classifyStep, resolves, hg]
    | ok nd => simp [classifyStep, resolves, hg]

theorem unknown_stays_unknown (ois : objectInfos) (hsorted : sortedByLess ois)
    (k : Nat) (hk : k < ois.length) (hu : (ois.get ⟨k, hk⟩).Type_ = "unknown")
    (d : Nat) (hd : k + d < ois.length) :
    (ois.get ⟨k + d, hd⟩).Type_ = "unknown" := by
  induction d with
  | zero => exact hu
  | succ d ih =>
    have hprev := ih (by omega)
    have hs := hsorted (k + d) (by omega)
    by_contra hne
    have hne2 : ¬ (ois.get ⟨k + d + 1, by omega⟩).Type_ = "unknown" := hne
    have hless : ois.Less ⟨k + d + 1, by omega⟩ ⟨k + d, by omega⟩ = true := by
      unfold objectInfos.Less
      rw [if_neg hne2, if_pos hprev]
    rw [hs] at hless
    exact Bool.false_ne_true hless

theorem Less_eq_lessRule (ois : objectInfos) (i j : Fin ois.length) :
    ois.Less i j =
      lessRule (decide ((ois.get i).Type_ = "unknown")) (decide ((ois.get j).Type_ = "unknown"))
        (ois.get i).Pinned (ois.get j).Pinned (ois.get i).TotalSize (ois.get j).TotalSize := by
  unfold objectInfos.Less lessRule
  generalize ois.get i = a
  generalize ois.get j = b
  by_cases ha : a.Type_ = "unknown" <;>
    by_cases hb : b.Type_ = "unknown" <;>
    cases hpa : a.Pinned <;>
    cases hpb : b.Pinned <;>
    simp [ha, hb]

theorem lessPair_known_unknown (a b : objectInfo) (ha : a.Type_ ≠ "unknown")
    (hb : b.Type_ = "unknown") : lessPair a b = true ∧ lessPair b a = false := by
  constructor
  · simp [lessPair, objectInfos.Less, ha, hb]
  · simp [lessPair, objectInfos.Less, ha, hb]

/-! ## Root selection: the exact result -/

/-- C1: for every stored-ID set `S`, pin set `P`, resolver `Get` and snapshot
`keys` of `S`, an identifier `s` is in the result of root selection exactly
when it is in `S` and no `x` in `S` resolves to a node that lists `s` among its
links while `s` is not in `P`.  The links of a node that was itself removed
still remove (chain 1 → 2 → 3 leaves only 1).  Scenario 1 (`S = [A, B, C]`,
`P = [A]`, `A → [B]`) gives `[A, C]` and scenario 2 (`S = [X, Y]`, `P = []`,
`X → [Y]`) gives `[X]`, in either enumeration order. -/
theorem C1_findRoots_exact {α : Type} [DecidableEq α]
    (Get : α → Except String (Node α)) (P S : CidSet α) (keys : List α)
    (hkeys : keys.Perm S) (s : α) :
    (s ∈ findRoots Get P keys S ↔
        s ∈ S ∧ ¬ ∃ x, x ∈ S ∧ ∃ nd, Get x = .ok nd ∧ s ∈ nd.Links ∧ s ∉ P)
      ∧ findRoots scenario1Get [1] [1, 2, 3] [1, 2, 3] = [1, 3]
      ∧ findRoots scenario1Get [1] [3, 2, 1] [1, 2, 3] = [1, 3]
      ∧ findRoots scenario2Get [] [1, 2] [1, 2] = [1]
      ∧ findRoots scenario2Get [] [2, 1] [1, 2] = [1]
      ∧ findRoots chainGet [] [1, 2, 3] [1, 2, 3] = [1] := by
  refine ⟨?_, by decide, by decide, by decide, by decide, by decide⟩
  rw [mem_findRoots]
  constructor
  · rintro ⟨h1, h2⟩
    exact ⟨h1, fun ⟨x, hx, h⟩ => h2 ⟨x, hkeys.mem_iff.2 hx, h⟩⟩
  · rintro ⟨h1, h2⟩
    exact ⟨h1, fun ⟨x, hx, h⟩ => h2 ⟨x, hkeys.mem_iff.1 hx, h⟩⟩

/-- Witness of C1 on the chain 1 → 2 → 3 enumerated as 3, 1, 2: node 3 is
stored and is not a root, node 1 is. -/
theorem C1_findRoots_exact_witness :
    [3, 1, 2].Perm [1, 2, 3] ∧
      (3 ∈ findRoots chainGet [] [3, 1, 2] [1, 2, 3] ↔
        3 ∈ [1, 2, 3] ∧
          ¬ ∃ x, x ∈ [1, 2, 3] ∧ ∃ nd, chainGet x = .ok nd ∧ 3 ∈ nd.Links ∧ 3 ∉ ([] : List Nat)) :=
  ⟨by decide, (C1_findRoots_exact chainGet [] [1, 2, 3] [3, 1, 2] (by decide) 3).1⟩

/-! ## The comparator -/

/-- C2: for every slice and every two positions in it, `Less` equals the
specification's rule table applied to six facts only: whether each row's type
is "unknown", each row's pinned flag and each row's size.  With exactly one
unknown row the answer is whether the second row is the unknown one, otherwise
it is (first pinned and second not) or (first size larger).  The result
therefore depends neither on `Hash` nor on which known type the rows have. -/
theorem C2_Less_rule_table (ois : objectInfos) (i j : Fin ois.length) (a b : objectInfo) :
    ois.Less i j =
        lessRule (decide ((ois.get i).Type_ = "unknown"))
          (decide ((ois.get j).Type_ = "unknown"))
          (ois.get i).Pinned (ois.get j).Pinned (ois.get i).TotalSize (ois.get j).TotalSize
      ∧ lessPair a b =
        lessRule (decide (a.Type_ = "unknown")) (decide (b.Type_ = "unknown"))
          a.Pinned b.Pinned a.TotalSize b.TotalSize := by
  exact ⟨Less_eq_lessRule ois i j, Less_eq_lessRule [a, b] ⟨0, by simp⟩ ⟨1, by simp⟩⟩

/-! ## Root selection: children of unpinned parents -/

/-- C3, as the claim states it, fails: with `S = [1, 2]`, `P = [2]` and node 1
linking to node 2, identifier 2 stays in the result although it is a child
link of node 1, whose own identifier is stored and not pinned. -/
theorem C3_pinned_child_kept :
    2 ∈ findRoots scenario1Get [2] [1, 2] [1, 2]
      ∧ 1 ∈ [1, 2] ∧ 1 ∉ [2]
      ∧ scenario1Get 1 = .ok (linksNode [2]) ∧ 2 ∈ (linksNode [2]).Links := by
  refine ⟨by decide, by decide, by decide, rfl, by decide⟩

/-- C3, amended: for every `S`, `P`, resolver and snapshot of `S`, the result
of root selection contains no element that is itself outside `P` and is a
child link of a node whose own identifier is in `S` and not in `P`. -/
theorem C3_no_unpinned_child {α : Type} [DecidableEq α]
    (Get : α → Except String (Node α)) (P S : CidSet α) (keys : List α)
    (hkeys : keys.Perm S) (c x : α) (nd : Node α)
    (hc : c ∈ findRoots Get P keys S) (hcP : c ∉ P)
    (hx : x ∈ S) (_hxP : x ∉ P) (hget : Get x = .ok nd) :
    c ∉ nd.Links := by
  intro hmem
  exact ((mem_findRoots Get P keys S c).1 hc).2 ⟨x, hkeys.mem_iff.2 hx, nd, hget, hmem, hcP⟩

/-- Witness of the amended C3 on scenario 1 with nothing pinned: 3 is a
root and is not among the links of node 1. -/
theorem C3_no_unpinned_child_witness :
    3 ∈ findRoots scenario1Get [] [3, 1, 2] [1, 2, 3] ∧ 3 ∉ (linksNode [2]).Links :=
  ⟨by decide,
    C3_no_unpinned_child scenario1Get [] [1, 2, 3] [3, 1, 2] (by decide) 3 1 (linksNode [2])
      (by decide) (by decide) (by decide) (by decide) rfl⟩

/-! ## The comparator is not asymmetric -/

/-- C4, the comparator at the failing input: for `a` known, pinned, of size 5
and `b` known, unpinned, of size 1000, both `Less(a, b)` and `Less(b, a)` are
true. -/
theorem C4_Less_both_true :
    lessPair knownPinned5 knownUnpinned1000 = true
      ∧ lessPair knownUnpinned1000 knownPinned5 = true := by
  decide

/-! ## Classification: one row per resolved root -/

/-- C5, as the claim states it, fails: with nothing but nodes 7 and 9
resolvable, root selection on `[7, 8, 9]` keeps all three identifiers, and the
classifier emits two rows only; identifier 8, whose node fails to resolve, has
no row. -/
theorem C5_unresolved_root_dropped :
    findRoots partialGet [9] [7, 8, 9] [7, 8, 9] = [7, 8, 9]
      ∧ resolves partialGet 8 = false
      ∧ (classify partialGet noDecode natString [9] [7, 8, 9]).map objectInfo.Hash
          = [natString 7, natString 9]
      ∧ (classify partialGet noDecode natString [9] [7, 8, 9]).length = 2 := by
  refine ⟨by decide, by decide, rfl, rfl⟩

/-- C5, amended: for every enumeration `keys` of the final root set, pin set
and resolver, the classifier emits exactly one row for each element whose node
resolves during classification, in enumeration order, and no row for an
element whose node fails to resolve. -/
theorem C5_one_row_per_resolved_root {α : Type} [DecidableEq α]
    (Get : α → Except String (Node α)) (FSNodeFromBytes : List Nat → Option String)
    (cidString : α → String) (P : CidSet α) (keys : List α) :
    (classify Get FSNodeFromBytes cidString P keys).map objectInfo.Hash
        = (keys.filter (resolves Get)).map cidString
      ∧ (classify Get FSNodeFromBytes cidString P keys).length
        = (keys.filter (resolves Get)).length := by
  have h := classify_fold_hashes Get FSNodeFromBytes cidString P keys []
  have h2 : (classify Get FSNodeFromBytes cidString P keys).map objectInfo.Hash
      = (keys.filter (resolves Get)).map cidString := by
    simpa [classify] using h
  refine ⟨h2, ?_⟩
  have h3 := congrArg List.length h2
  simpa using h3

/-! ## Root selection: resolver failures -/

/-- C6, as the claim states it, fails: with `S = [1, 2]`, nothing pinned, node
1 linking to 2 and node 2 unresolvable, identifier 2 is removed from the
result. -/
theorem C6_failing_child_removed :
    2 ∈ [1, 2]
      ∧ resolves brokenChildGet 2 = false
      ∧ findRoots brokenChildGet [] [1, 2] [1, 2] = [1]
      ∧ 2 ∉ findRoots brokenChildGet [] [1, 2] [1, 2] := by
  refine ⟨by decide, by decide, by decide, by decide⟩

/-- C6, amended: for every `S`, `P`, resolver, snapshot of `S` and every `x` in
`S` whose resolution fails, the iteration for `x` leaves the candidate set
unchanged, and `x` is in the result exactly when `x` is in `P` or no node with
identifier in `S` resolves to a node that lists `x` among its links. -/
theorem C6_failed_key_kept_unless_linked {α : Type} [DecidableEq α]
    (Get : α → Except String (Node α)) (P S : CidSet α) (keys : List α)
    (hkeys : keys.Perm S) (x : α) (hx : x ∈ S) (e : String) (hfail : Get x = .error e) :
    (∀ ks : CidSet α, selectStep Get P ks x = ks)
      ∧ (x ∈ findRoots Get P keys S ↔
          x ∈ P ∨ ¬ ∃ y, y ∈ S ∧ ∃ nd, Get y = .ok nd ∧ x ∈ nd.Links) := by
  constructor
  · intro ks
    simp [selectStep, hfail]
  · rw [mem_findRoots]
    constructor
    · rintro ⟨_, h⟩
      by_cases hP : x ∈ P
      · exact Or.inl hP
      · refine Or.inr ?_
        rintro ⟨y, hy, nd, hnd, hl⟩
        exact h ⟨y, hkeys.mem_iff.2 hy, nd, hnd, hl, hP⟩
    · rintro (hP | h)
      · exact ⟨hx, fun ⟨_, _, _, _, _, hnP⟩ => hnP hP⟩
      · exact ⟨hx, fun ⟨y, hy, nd, hnd, hl, _⟩ => h ⟨y, hkeys.mem_iff.1 hy, nd, hnd, hl⟩⟩

/-- Witness of the amended C6: identifier 8 does not resolve, and it is a
root of `[7, 8, 9]` enumerated as 9, 7, 8. -/
theorem C6_failed_key_kept_unless_linked_witness :
    [9, 7, 8].Perm [7, 8, 9] ∧ 8 ∈ [7, 8, 9] ∧ partialGet 8 = .error "not found"
      ∧ (∀ ks : CidSet Nat, selectStep partialGet [9] ks 8 = ks)
      ∧ (8 ∈ findRoots partialGet [9] [9, 7, 8] [7, 8, 9] ↔
          8 ∈ [9] ∨ ¬ ∃ y, y ∈ [7, 8, 9] ∧ ∃ nd, partialGet y = .ok nd ∧ 8 ∈ nd.Links) :=
  ⟨by decide, by decide, rfl,
    C6_failed_key_kept_unless_linked partialGet [9] [7, 8, 9] [9, 7, 8] (by decide) 8
      (by decide) "not found" rfl⟩

/-! ## Root selection: invariants -/

/-- C7: for every `S`, `P`, resolver and snapshot, every identifier that is in
both `P` and `S` is in the result of root selection, whatever links point to
it. -/
theorem C7_pinned_stored_kept {α : Type} [DecidableEq α]
    (Get : α → Except String (Node α)) (P S : CidSet α) (keys : List α)
    (x : α) (hP : x ∈ P) (hS : x ∈ S) :
    x ∈ findRoots Get P keys S := by
  rw [mem_findRoots]
  exact ⟨hS, fun ⟨_, _, _, _, _, hnP⟩ => hnP hP⟩

/-- Witness of C7: node 1 links to 2, and 2, being pinned and stored, is a
root. -/
theorem C7_pinned_stored_kept_witness :
    2 ∈ [2] ∧ 2 ∈ [1, 2] ∧ 2 ∈ findRoots scenario1Get [2] [2, 1] [1, 2] :=
  ⟨by decide, by decide,
    C7_pinned_stored_kept scenario1Get [2] [1, 2] [2, 1] 2 (by decide) (by decide)⟩

/-- C8: at every point of root selection (after `n` iterations of the outer
loop and `m` links of the next node) the candidate set is a sublist of the
initial `S`; each further link and each further iteration only shrinks it; the
run starts from `S` and ends, after the last key, in the result, which is a
sublist and hence a subset of `S`.  A link to an identifier that is not stored
adds nothing. -/
theorem C8_candidates_only_shrink {α : Type} [DecidableEq α]
    (Get : α → Except String (Node α)) (P S : CidSet α) (keys : List α) (n m : Nat) :
    (stateAfter Get P keys S n m).Sublist S
      ∧ (stateAfter Get P keys S n (m + 1)).Sublist (stateAfter Get P keys S n m)
      ∧ (stateAfter Get P keys S (n + 1) 0).Sublist (stateAfter Get P keys S n m)
      ∧ stateAfter Get P keys S 0 0 = S
      ∧ stateAfter Get P keys S keys.length m = findRoots Get P keys S
      ∧ (findRoots Get P keys S).Sublist S
      ∧ findRoots Get P keys S ⊆ S
      ∧ findRoots strayLinkGet [] [1, 2] [1, 2] = [1, 2] := by
  refine ⟨?_, stateAfter_succ_links Get P keys S n m, stateAfter_succ_key Get P keys S n m,
    ?_, ?_, findRoots_sublist Get P keys S, (findRoots_sublist Get P keys S).subset,
    by decide⟩
  · exact (stateAfter_sublist_taken Get P keys S n m).trans (findRoots_sublist Get P _ S)
  · rw [stateAfter_zero_links]
    simp [findRoots]
  · unfold stateAfter
    simp

/-! ## Sorting with the comparator -/

/-- C9, the sort at the failing input: on the slice `[known/pinned/size 5,
known/unpinned/size 1000]` the comparator answers that the unpinned row is
less than the pinned one, so the insertion sort that `sort.Sort` runs on a
short slice swaps them and the unpinned row is listed first. -/
theorem C9_sort_lists_unpinned_first :
    objectInfos.Less [knownPinned5, knownUnpinned1000] ⟨1, by decide⟩ ⟨0, by decide⟩ = true
      ∧ sortShort [knownPinned5, knownUnpinned1000] = [knownUnpinned1000, knownPinned5] := by
  refine ⟨by decide, by decide⟩

/-- C10: in every slice that satisfies the sort postcondition for `Less` (no
row is `Less` than the row immediately before it), every row whose type is not
"unknown" stands before every row whose type is "unknown"; and for any `a` of
known type and `b` of unknown type `Less(a, b)` is true and `Less(b, a)` is
false, whatever their pinned flags and sizes. -/
theorem C10_known_before_unknown (ois : objectInfos) (hsorted : sortedByLess ois)
    (i j : Fin ois.length) (hi : (ois.get i).Type_ ≠ "unknown")
    (hj : (ois.get j).Type_ = "unknown")
    (a b : objectInfo) (ha : a.Type_ ≠ "unknown") (hb : b.Type_ = "unknown") :
    i < j ∧ lessPair a b = true ∧ lessPair b a = false := by
  refine ⟨?_, lessPair_known_unknown a b ha hb⟩
  by_contra hlt
  have hle : j.val ≤ i.val := by
    have := Fin.not_lt.1 hlt
    exact this
  have hu := unknown_stays_unknown ois hsorted j.val j.isLt hj (i.val - j.val)
    (by have := i.isLt; omega)
  have hidx : (⟨j.val + (i.val - j.val), by have := i.isLt; omega⟩ : Fin ois.length) = i :=
    Fin.ext (by show j.val + (i.val - j.val) = i.val; omega)
  rw [hidx] at hu
  exact hi hu

/-- Witness of C10: the slice `[known 1000, known 1, unknown 10]` satisfies
the sort postcondition; its row 1 is known, its row 2 unknown. -/
theorem C10_known_before_unknown_witness :
    sortedByLess [knownUnpinned1000, knownUnpinned1, unknownUnpinned10]
      ∧ ((⟨1, by decide⟩ : Fin [knownUnpinned1000, knownUnpinned1, unknownUnpinned10].length)
          < ⟨2, by decide⟩
        ∧ lessPair knownUnpinned1 unknownPinned2000 = true
        ∧ lessPair unknownPinned2000 knownUnpinned1 = false) :=
  have hs : sortedByLess [knownUnpinned1000, knownUnpinned1, unknownUnpinned10] :=
    fun k h =>
      match k, h with
      | 0, _ => rfl
      | 1, _ => rfl
      | k + 2, h => absurd h (by simp)
  ⟨hs, C10_known_before_unknown _ hs ⟨1, by decide⟩ ⟨2, by decide⟩ (by decide) (by decide)
    knownUnpinned1 unknownPinned2000 (by decide) (by decide)⟩

/-! ## Lemmas on the shape of the results -/

theorem removeLinks_is_filter {α : Type} [DecidableEq α] (recpins : CidSet α)
    (links : List α) :
    ∃ q : α → Bool, ∀ allKeys : CidSet α,
      removeLinks recpins links allKeys = allKeys.filter q := by
  induction links with
  | nil => exact ⟨fun _ => true, fun ks => by simp [removeLinks]⟩
  | cons l ls ih =>
    obtain ⟨q, hq⟩ := ih
    by_cases hl : CidSet.Has recpins l = true
    · refine ⟨q, fun ks => ?_⟩
      have := hq ks
      unfold removeLinks at this ⊢
      rw [List.foldl_cons]
      simpa [hl] using this
    · refine ⟨fun a => q a && decide (a ≠ l), fun ks => ?_⟩
      have := hq (CidSet.Remove ks l)
      unfold removeLinks at this ⊢
      rw [List.foldl_cons]
      simp only [Bool.not_eq_true] at hl
      simp only [hl, Bool.not_false, if_true]
      rw [this]
      unfold CidSet.Remove
      rw [List.filter_filter]

theorem findRoots_is_filter {α : Type} [DecidableEq α] (Get : α → Except String (Node α))
    (recpins : CidSet α) (keys : List α) :
    ∃ q : α → Bool, ∀ allKeys : CidSet α,
      findRoots Get recpins keys allKeys = allKeys.filter q := by
  induction keys with
  | nil => exact ⟨fun _ => true, fun ks => by simp [findRoots]⟩
  | cons k ks ih =>
    obtain ⟨q, hq⟩ := ih
    cases hg : Get k with
    | error e =>
      refine ⟨q, fun all => ?_⟩
      have := hq all
      unfold findRoots at this ⊢
      rw [List.foldl_cons]
      simpa [selectStep, hg] using this
    | ok nd =>
      obtain ⟨r, hr⟩ := removeLinks_is_filter recpins nd.Links
      refine ⟨fun a => q a && r a, fun all => ?_⟩
      have := hq (removeLinks recpins nd.Links all)
      unfold findRoots at this ⊢
      rw [List.foldl_cons]
      simp only [selectStep, hg]
      rw [this, hr all, List.filter_filter]

theorem findRoots_eq_of_mem_iff {α : Type} [DecidableEq α]
    (Get Get2 : α → Except String (Node α)) (recpins recpins2 : CidSet α)
    (keys keys2 : List α) (allKeys : CidSet α)
    (h : ∀ x, x ∈ allKeys →
      (x ∈ findRoots Get recpins keys allKeys ↔ x ∈ findRoots Get2 recpins2 keys2 allKeys)) :
    findRoots Get recpins keys allKeys = findRoots Get2 recpins2 keys2 allKeys := by
  obtain ⟨q, hq⟩ := findRoots_is_filter Get recpins keys
  obtain ⟨r, hr⟩ := findRoots_is_filter Get2 recpins2 keys2
  rw [hq, hr]
  apply List.filter_congr
  intro x hx
  have hx2 := h x hx
  rw [hq, hr, List.mem_filter, List.mem_filter] at hx2
  cases hqx : q x <;> cases hrx : r x <;> simp_all

theorem classify_fold_append {α : Type} [DecidableEq α] (Get : α → Except String (Node α))
    (FSNodeFromBytes : List Nat → Option String) (cidString : α → String)
    (recpins : CidSet α) (keys : List α) (output : List objectInfo) :
    keys.foldl (classifyStep Get FSNodeFromBytes cidString recpins) output =
      output ++ classify Get FSNodeFromBytes cidString recpins keys := by
  unfold classify
  induction keys generalizing output with
  | nil => simp
  | cons k ks ih =>
    rw [List.foldl_cons, List.foldl_cons, ih, ih (classifyStep _ _ _ _ [] k)]
    cases hg : Get k with
    | error e => simp [classifyStep, hg]
    | ok nd => simp [classifyStep, hg]

theorem classify_cons_ok {α : Type} [DecidableEq α] (Get : α → Except String (Node α))
    (FSNodeFromBytes : List Nat → Option String) (cidString : α → String)
    (recpins : CidSet α) (c : α) (keys : List α) (nd : Node α) (hg : Get c = .ok nd) :
    classify Get FSNodeFromBytes cidString recpins (c :: keys) =
      rowOf FSNodeFromBytes cidString recpins c nd ::
        classify Get FSNodeFromBytes cidString recpins keys := by
  have h := classify_fold_append Get FSNodeFromBytes cidString recpins keys
    (classifyStep Get FSNodeFromBytes cidString recpins [] c)
  unfold classify at h ⊢
  rw [List.foldl_cons, h]
  simp [classifyStep, hg, rowOf]

theorem classify_cons_error {α : Type} [DecidableEq α] (Get : α → Except String (Node α))
    (FSNodeFromBytes : List Nat → Option String) (cidString : α → String)
    (recpins : CidSet α) (c : α) (keys : List α) (e : String) (hg : Get c = .error e) :
    classify Get FSNodeFromBytes cidString recpins (c :: keys) =
      classify Get FSNodeFromBytes cidString recpins keys := by
  unfold classify
  rw [List.foldl_cons]
  simp [classifyStep, hg]

theorem classify_append {α : Type} [DecidableEq α] (Get : α → Except String (Node α))
    (FSNodeFromBytes : List Nat → Option String) (cidString : α → String)
    (recpins : CidSet α) (k₁ k₂ : List α) :
    classify Get FSNodeFromBytes cidString recpins (k₁ ++ k₂) =
      classify Get FSNodeFromBytes cidString recpins k₁ ++
        classify Get FSNodeFromBytes cidString recpins k₂ := by
  have h := classify_fold_append Get FSNodeFromBytes cidString recpins k₂
    (classify Get FSNodeFromBytes cidString recpins k₁)
  rw [← h]
  unfold classify
  rw [List.foldl_append]

theorem mem_classify {α : Type} [DecidableEq α] (Get : α → Except String (Node α))
    (FSNodeFromBytes : List Nat → Option String) (cidString : α → String)
    (recpins : CidSet α) (keys : List α) (oi : objectInfo) :
    oi ∈ classify Get FSNodeFromBytes cidString recpins keys ↔
      ∃ c, c ∈ keys ∧ ∃ nd, Get c = .ok nd ∧
        oi = rowOf FSNodeFromBytes cidString recpins c nd := by
  induction keys with
  | nil => simp [classify]
  | cons k ks ih =>
    cases hg : Get k with
    | error e =>
      rw [classify_cons_error Get _ _ _ k ks e hg, ih]
      constructor
      · rintro ⟨c, hc, h⟩
        exact ⟨c, List.mem_cons_of_mem _ hc, h⟩
      · rintro ⟨c, hc, nd, hnd, h⟩
        rcases List.mem_cons.1 hc with rfl | hc
        · rw [hg] at hnd
          cases hnd
        · exact ⟨c, hc, nd, hnd, h⟩
    | ok nd =>
      rw [classify_cons_ok Get _ _ _ k ks nd hg, List.mem_cons, ih]
      constructor
      · rintro (h | ⟨c, hc, h⟩)
        · exact ⟨k, List.mem_cons_self _ _, nd, hg, h⟩
        · exact ⟨c, List.mem_cons_of_mem _ hc, h⟩
      · rintro ⟨c, hc, nd2, hnd, h⟩
        rcases List.mem_cons.1 hc with rfl | hc
        · rw [hg] at hnd
          cases hnd
          exact Or.inl h
        · exact Or.inr ⟨c, hc, nd2, hnd, h⟩

theorem unixfs_ne_unknown (t : String) : "unixfs-" ++ t ≠ "unknown" := by
  intro h
  have h2 := congrArg String.data h
  rw [String.data_append] at h2
  simp at h2

theorem typeLabel_unknown_iff (decoded : Option String) :
    typeLabel decoded = "unknown" ↔ decoded = none := by
  cases decoded with
  | none => simp [typeLabel]
  | some t => simp [typeLabel, unixfs_ne_unknown]

/-! ## Root selection: order of enumeration, failures, fixed point -/

/-- C11: root selection is deterministic.  For every `S`, `P` and resolver,
any two orders in which the snapshot of `S` is enumerated yield the identical
result (the same list, hence the same set). -/
theorem C11_findRoots_order_independent {α : Type} [DecidableEq α]
    (Get : α → Except String (Node α)) (P S : CidSet α) (keys₁ keys₂ : List α)
    (h₁ : keys₁.Perm S) (h₂ : keys₂.Perm S) :
    findRoots Get P keys₁ S = findRoots Get P keys₂ S := by
  apply findRoots_eq_of_mem_iff
  intro x _
  rw [mem_findRoots, mem_findRoots]
  constructor
  · rintro ⟨hx, h⟩
    exact ⟨hx, fun ⟨c, hc, hnd⟩ => h ⟨c, h₁.mem_iff.2 (h₂.mem_iff.1 hc), hnd⟩⟩
  · rintro ⟨hx, h⟩
    exact ⟨hx, fun ⟨c, hc, hnd⟩ => h ⟨c, h₂.mem_iff.2 (h₁.mem_iff.1 hc), hnd⟩⟩

/-- Witness of C11: the chain 1 → 2 → 3 enumerated as 3, 1, 2 and as
2, 3, 1. -/
theorem C11_findRoots_order_independent_witness :
    [3, 1, 2].Perm [1, 2, 3] ∧ [2, 3, 1].Perm [1, 2, 3]
      ∧ findRoots chainGet [] [3, 1, 2] [1, 2, 3] = findRoots chainGet [] [2, 3, 1] [1, 2, 3] :=
  ⟨by decide, by decide,
    C11_findRoots_order_independent chainGet [] [1, 2, 3] [3, 1, 2] [2, 3, 1]
      (by decide) (by decide)⟩

/-- C12: resolver failures never demote.  For every `S` and `P`, if the resolver
`Get2` returns a node only where `Get` returns that same node (so it fails at
least where `Get` fails), the result under `Get` is a subset of the result
under `Get2`; and every identifier of `S` missing from the result under `Get`
is outside `P` and is a link of some node with identifier in `S` that `Get`
resolved successfully. -/
theorem C12_failures_never_demote {α : Type} [DecidableEq α]
    (Get Get2 : α → Except String (Node α)) (P S : CidSet α) (keys keys2 : List α)
    (hkeys : keys.Perm S) (hkeys2 : keys2.Perm S)
    (hagree : ∀ c nd, Get2 c = .ok nd → Get c = .ok nd) :
    findRoots Get P keys S ⊆ findRoots Get2 P keys2 S
      ∧ ∀ x, x ∈ S → x ∉ findRoots Get P keys S →
          ∃ y, y ∈ S ∧ ∃ nd, Get y = .ok nd ∧ x ∈ nd.Links ∧ x ∉ P := by
  constructor
  · intro x hx
    rw [mem_findRoots] at hx ⊢
    refine ⟨hx.1, ?_⟩
    rintro ⟨c, hc, nd, hnd, hl, hP⟩
    exact hx.2 ⟨c, hkeys.mem_iff.2 (hkeys2.mem_iff.1 hc), nd, hagree c nd hnd, hl, hP⟩
  · intro x hx hnot
    by_contra hno
    apply hnot
    rw [mem_findRoots]
    refine ⟨hx, ?_⟩
    rintro ⟨c, hc, nd, hnd, hl, hP⟩
    exact hno ⟨c, hkeys.mem_iff.1 hc, nd, hnd, hl, hP⟩

/-- Witness of C12: the chain 1 → 2 → 3 against the resolver that only
resolves node 1; the roots are `[1]` and `[1, 3]`. -/
theorem C12_failures_never_demote_witness :
    [3, 1, 2].Perm [1, 2, 3] ∧ [2, 3, 1].Perm [1, 2, 3]
      ∧ (∀ c nd, brokenChildGet c = .ok nd → chainGet c = .ok nd)
      ∧ findRoots chainGet [] [3, 1, 2] [1, 2, 3] = [1]
      ∧ findRoots brokenChildGet [] [2, 3, 1] [1, 2, 3] = [1, 3]
      ∧ (findRoots chainGet [] [3, 1, 2] [1, 2, 3]
            ⊆ findRoots brokenChildGet [] [2, 3, 1] [1, 2, 3]
          ∧ ∀ x, x ∈ [1, 2, 3] → x ∉ findRoots chainGet [] [3, 1, 2] [1, 2, 3] →
              ∃ y, y ∈ [1, 2, 3] ∧ ∃ nd, chainGet y = .ok nd ∧ x ∈ nd.Links
                ∧ x ∉ ([] : List Nat)) :=
  have hagree : ∀ c nd, brokenChildGet c = .ok nd → chainGet c = .ok nd := by
    intro c nd h
    unfold brokenChildGet at h
    unfold chainGet
    by_cases hc : c = 1
    · simpa [hc] using h
    · simp [hc] at h
  ⟨by decide, by decide, hagree, by decide, by decide,
    C12_failures_never_demote chainGet brokenChildGet [] [1, 2, 3] [3, 1, 2] [2, 3, 1]
      (by decide) (by decide) hagree⟩

/-- C17: root selection is a fixed point on its own output.  For every `S`,
`P`, resolver and snapshot of `S`, running root selection again on the result
`R` (with any snapshot of `R`) returns `R` unchanged. -/
theorem C17_findRoots_fixed_point {α : Type} [DecidableEq α]
    (Get : α → Except String (Node α)) (P S : CidSet α) (keys keys2 : List α)
    (hkeys : keys.Perm S) (hkeys2 : keys2.Perm (findRoots Get P keys S)) :
    findRoots Get P keys2 (findRoots Get P keys S) = findRoots Get P keys S := by
  obtain ⟨q, hq⟩ := findRoots_is_filter Get P keys2
  rw [hq, List.filter_eq_self]
  intro a ha
  have hmem : a ∈ findRoots Get P keys2 (findRoots Get P keys S) := by
    rw [mem_findRoots]
    refine ⟨ha, ?_⟩
    rintro ⟨c, hc, hnd⟩
    have hcR : c ∈ findRoots Get P keys S := hkeys2.mem_iff.1 hc
    have hcS : c ∈ S := (findRoots_sublist Get P keys S).subset hcR
    exact ((mem_findRoots Get P keys S a).1 ha).2 ⟨c, hkeys.mem_iff.2 hcS, hnd⟩
  rw [hq, List.mem_filter] at hmem
  exact hmem.2

/-- Witness of C17: the chain 1 → 2 → 3 with node 3 pinned has roots
`[1, 3]`, and selecting again from `[1, 3]` enumerated as 3, 1 returns
`[1, 3]`. -/
theorem C17_findRoots_fixed_point_witness :
    [3, 1, 2].Perm [1, 2, 3]
      ∧ [3, 1].Perm (findRoots chainGet [3] [3, 1, 2] [1, 2, 3])
      ∧ findRoots chainGet [3] [3, 1] (findRoots chainGet [3] [3, 1, 2] [1, 2, 3])
          = findRoots chainGet [3] [3, 1, 2] [1, 2, 3] :=
  ⟨by decide, by decide,
    C17_findRoots_fixed_point chainGet [3] [1, 2, 3] [3, 1, 2] [3, 1] (by decide) (by decide)⟩

/-! ## Classification: the fields of a row -/

/-- C13: every row emitted by the classifier comes from a key whose node
resolved; its type is "unixfs-" followed by the decoded type name when the
payload decodes, and "unknown" when decoding fails; hence its type is
"unknown" exactly when decoding of the payload failed. -/
theorem C13_type_label {α : Type} [DecidableEq α]
    (Get : α → Except String (Node α)) (FSNodeFromBytes : List Nat → Option String)
    (cidString : α → String) (P : CidSet α) (keys : List α) (oi : objectInfo)
    (hoi : oi ∈ classify Get FSNodeFromBytes cidString P keys) :
    ∃ c, c ∈ keys ∧ ∃ nd, Get c = .ok nd ∧ oi.Hash = cidString c
      ∧ (∀ t, FSNodeFromBytes nd.Data = some t → oi.Type_ = "unixfs-" ++ t)
      ∧ (FSNodeFromBytes nd.Data = none → oi.Type_ = "unknown")
      ∧ (oi.Type_ = "unknown" ↔ FSNodeFromBytes nd.Data = none) := by
  obtain ⟨c, hc, nd, hnd, rfl⟩ := (mem_classify Get FSNodeFromBytes cidString P keys oi).1 hoi
  refine ⟨c, hc, nd, hnd, rfl, ?_, ?_, ?_⟩
  · intro t ht
    simp [rowOf, typeLabel, ht]
  · intro hn
    simp [rowOf, typeLabel, hn]
  · exact typeLabel_unknown_iff _

/-- Witness of C13: with a decoder that recognises the payload of node 7 only,
the row of node 7 has type "unixfs-File". -/
theorem C13_type_label_witness :
    (⟨"7", "unixfs-File", 0, false⟩ : objectInfo)
        ∈ classify sizeErrGet fileDecode natString [] [7, 8]
      ∧ ∃ c, c ∈ [7, 8] ∧ ∃ nd, sizeErrGet c = .ok nd
        ∧ (⟨"7", "unixfs-File", 0, false⟩ : objectInfo).Hash = natString c
        ∧ (∀ t, fileDecode nd.Data = some t
            → (⟨"7", "unixfs-File", 0, false⟩ : objectInfo).Type_ = "unixfs-" ++ t)
        ∧ (fileDecode nd.Data = none
            → (⟨"7", "unixfs-File", 0, false⟩ : objectInfo).Type_ = "unknown")
        ∧ ((⟨"7", "unixfs-File", 0, false⟩ : objectInfo).Type_ = "unknown"
            ↔ fileDecode nd.Data = none) :=
  ⟨by decide,
    C13_type_label sizeErrGet fileDecode natString [] [7, 8] ⟨"7", "unixfs-File", 0, false⟩
      (by decide)⟩

/-- C14: for every row emitted by the classifier over a snapshot of the final
root set `R`, there is an identifier `c` in `R` such that the row's `Hash` is
the string form of `c` and its `Pinned` flag is true exactly when `c` is in the
recursive pin set `P`. -/
theorem C14_pinned_and_hash {α : Type} [DecidableEq α]
    (Get : α → Except String (Node α)) (FSNodeFromBytes : List Nat → Option String)
    (cidString : α → String) (P S : CidSet α) (keys keys2 : List α)
    (hkeys2 : keys2.Perm (findRoots Get P keys S)) (oi : objectInfo)
    (hoi : oi ∈ classify Get FSNodeFromBytes cidString P keys2) :
    ∃ c, c ∈ findRoots Get P keys S ∧ oi.Hash = cidString c
      ∧ (oi.Pinned = true ↔ c ∈ P) := by
  obtain ⟨c, hc, nd, _, rfl⟩ := (mem_classify Get FSNodeFromBytes cidString P keys2 oi).1 hoi
  refine ⟨c, hkeys2.mem_iff.1 hc, rfl, ?_⟩
  simp [rowOf, CidSet.Has]

/-- Witness of C14: nodes 7, 8, 9 are all roots, 9 is pinned, and the row of
node 9 carries its string form and the pinned flag. -/
theorem C14_pinned_and_hash_witness :
    [9, 7, 8].Perm (findRoots partialGet [9] [8, 9, 7] [7, 8, 9])
      ∧ (⟨"9", "unknown", 9, true⟩ : objectInfo)
          ∈ classify partialGet noDecode natString [9] [9, 7, 8]
      ∧ ∃ c, c ∈ findRoots partialGet [9] [8, 9, 7] [7, 8, 9]
        ∧ (⟨"9", "unknown", 9, true⟩ : objectInfo).Hash = natString c
        ∧ ((⟨"9", "unknown", 9, true⟩ : objectInfo).Pinned = true ↔ c ∈ [9]) :=
  ⟨by decide, by decide,
    C14_pinned_and_hash partialGet noDecode natString [9] [7, 8, 9] [8, 9, 7] [9, 7, 8]
      (by decide) ⟨"9", "unknown", 9, true⟩ (by decide)⟩

/-- C15: size and payload-decode failures are not fatal.  For every key `c` of
the snapshot whose node `nd` resolves, whatever error `Size()` returns and
whether or not the payload decodes, the classifier's output is the rows of the
keys before `c`, then one row for `c` whose `TotalSize` is the value returned
by `Size()`, then the rows of the keys after `c`; and when the string form is
injective and the snapshot has no repetition, exactly one row carries the
`Hash` of `c`. -/
theorem C15_one_row_with_size {α : Type} [DecidableEq α]
    (Get : α → Except String (Node α)) (FSNodeFromBytes : List Nat → Option String)
    (cidString : α → String) (P : CidSet α) (k₁ k₂ : List α) (c : α) (nd : Node α)
    (hget : Get c = .ok nd) :
    classify Get FSNodeFromBytes cidString P (k₁ ++ c :: k₂) =
        classify Get FSNodeFromBytes cidString P k₁ ++
          { Hash := cidString c
            Type_ := typeLabel (FSNodeFromBytes nd.Data)
            TotalSize := nd.Size.1
            Pinned := CidSet.Has P c } ::
          classify Get FSNodeFromBytes cidString P k₂
      ∧ (Function.Injective cidString → (k₁ ++ c :: k₂).Nodup →
          ((classify Get FSNodeFromBytes cidString P (k₁ ++ c :: k₂)).map
            objectInfo.Hash).count (cidString c) = 1) := by
  constructor
  · rw [classify_append, classify_cons_ok Get _ _ _ c k₂ nd hget]
    rfl
  · intro hinj hnodup
    have h := classify_fold_hashes Get FSNodeFromBytes cidString P (k₁ ++ c :: k₂) []
    have h2 : (classify Get FSNodeFromBytes cidString P (k₁ ++ c :: k₂)).map objectInfo.Hash
        = ((k₁ ++ c :: k₂).filter (resolves Get)).map cidString := by
      simpa [classify] using h
    rw [h2, List.count_map_of_injective _ cidString hinj]
    apply List.count_eq_one_of_mem (hnodup.filter _)
    rw [List.mem_filter]
    exact ⟨by simp, by simp [resolves, hget]⟩

/-- Witness of C15: every node's `Size()` fails (returning 0 with an error)
and no payload decodes; the key 8 between 7 and 9 still gets its one row, of
size 0 and type "unknown". -/
theorem C15_one_row_with_size_witness :
    sizeErrGet 8 = .ok { Links := [], Data := [8], Size := (0, some "size error") }
      ∧ classify sizeErrGet noDecode natString [9] ([7] ++ 8 :: [9]) =
          classify sizeErrGet noDecode natString [9] [7] ++
            { Hash := natString 8
              Type_ := typeLabel
                (noDecode (Node.Data
                  ({ Links := [], Data := [8], Size := (0, some "size error") } : Node Nat)))
              TotalSize := (Node.Size
                ({ Links := [], Data := [8], Size := (0, some "size error") } : Node Nat)).1
              Pinned := CidSet.Has [9] 8 } ::
            classify sizeErrGet noDecode natString [9] [9]
      ∧ classify sizeErrGet noDecode natString [9] [7, 8, 9] =
          [⟨"7", "unknown", 0, false⟩, ⟨"8", "unknown", 0, false⟩, ⟨"9", "unknown", 0, true⟩] :=
  ⟨rfl,
    (C15_one_row_with_size sizeErrGet noDecode natString [9] [7] [9] 8
      { Links := [], Data := [8], Size := (0, some "size error") } rfl).1,
    by decide⟩

/-! ## The comparator is not transitive -/

/-- C16: the comparator is not a strict weak ordering: there are rows `a`, `b`,
`c` with `Less(a, b)` and `Less(b, c)` true and `Less(a, c)` false, namely
`a` known, unpinned, of size 10, `b` known, pinned, of size 5 and `c` known,
unpinned, of size 20. -/
theorem C16_Less_not_transitive :
    (∃ a b c : objectInfo,
        lessPair a b = true ∧ lessPair b c = true ∧ lessPair a c = false)
      ∧ lessPair knownUnpinned10 knownPinned5 = true
      ∧ lessPair knownPinned5 knownUnpinned20 = true
      ∧ lessPair knownUnpinned10 knownUnpinned20 = false := by
  refine ⟨⟨knownUnpinned10, knownPinned5, knownUnpinned20, ?_, ?_, ?_⟩, ?_, ?_, ?_⟩ <;> decide

end IpfsSeeAll
